import Mathlib

/-!
# subscriptions-go: month-interval arithmetic of the subscription service

A shallow embedding of the Go sources

* `model/subscription.go`            (the `Subscription` record),
* `repository/subscription_repo.go`  (`SubscriptionRepo.List`),
* `service/subscription_service.go`  (`Create`, `Update`, `Sum` and their helpers),
* `api/handlers.go`                  (the loop of `Handler.Summary` and its helpers),

followed by theorems about overlap validation, month normalisation and cost
aggregation.

Modelling conventions.

* A `time.Time` is its civil reading (year, month, day, clock) in one location, UTC,
  which is the location `parseMonthYear` and the sentinel `9999-12` use.  In one
  location `Before` and `After` on instants are the lexicographic order of the civil
  fields.  `Time.Month()` of a Go time lies in `1..12`; theorems that depend on this
  carry it as the hypothesis `Time.InRange`.
* Go `int64` arithmetic wraps: the conversion `int64(x)`, the product and the running
  total of the two aggregation loops are reduced to the range `[-2^63, 2^63)` by
  `wrapInt64`.  The month difference of two Go times is computed in `int` without
  leaving its range, since the years of Go times are below `2^40` in absolute value.
* Errors returned by the database layer are strings; the outcome types below keep apart
  the places an error comes from.
-/

set_option autoImplicit false

/-! ## Package `time` (the part of the Go library the sources use) -/

namespace time

/-- Civil reading of a Go `time.Time` in UTC. -/
structure Time where
  year : Int
  month : Int
  day : Int
  hour : Int
  minute : Int
  second : Int
  nano : Int
  deriving DecidableEq, Repr

/-- Go `time.Date(year, month, day, hour, min, sec, nsec, time.UTC)`.  A month outside
`1..12` is carried into the year exactly as the library's `norm` does (floor division by
twelve).  Day and clock values are passed through: every call in the sources passes
`1, 0, 0, 0, 0`, for which the library does no carrying. -/
def Date (year month day hour minute second nano : Int) : Time :=
  ⟨year + (month - 1) / 12, (month - 1) % 12 + 1, day, hour, minute, second, nano⟩

namespace Time

/-- Go `t.Year()`. -/
def Year (t : Time) : Int := t.year

/-- Go `t.Month()`. -/
def Month (t : Time) : Int := t.month

/-- Go `t.Before(u)`: `t` is strictly earlier than `u`. -/
def Before (t u : Time) : Bool :=
  decide (t.year < u.year ∨ (t.year = u.year ∧ (t.month < u.month ∨ (t.month = u.month ∧
    (t.day < u.day ∨ (t.day = u.day ∧ (t.hour < u.hour ∨ (t.hour = u.hour ∧
    (t.minute < u.minute ∨ (t.minute = u.minute ∧ (t.second < u.second ∨
    (t.second = u.second ∧ t.nano < u.nano))))))))))))

/-- Go `t.After(u)`: `t` is strictly later than `u`. -/
def After (t u : Time) : Bool := Before u t

/-- The month of a Go time lies in `1..12`. -/
def InRange (t : Time) : Prop := 1 ≤ t.month ∧ t.month ≤ 12

instance (t : Time) : Decidable (InRange t) := by
  unfold InRange; exact inferInstance

/-- A month-granular date: first day of an in-range month at midnight. -/
def IsMonthStart (t : Time) : Prop :=
  InRange t ∧ t.day = 1 ∧ t.hour = 0 ∧ t.minute = 0 ∧ t.second = 0 ∧ t.nano = 0

instance (t : Time) : Decidable (IsMonthStart t) := by
  unfold IsMonthStart; exact inferInstance

/-- Number of the calendar month of `t`, counted from month 1 of year 0. -/
def monthIndex (t : Time) : Int := t.year * 12 + (t.month - 1)

end Time

end time

open time (Time)

/-! ## Go `int64` -/

/-- The value of a Go `int64` expression whose exact value is `x`: `x` reduced modulo
`2^64` into the range from `-2^63` up to, not including, `2^63`. -/
def wrapInt64 (x : Int) : Int :=
  (x + 9223372036854775808) % 18446744073709551616 - 9223372036854775808

/-- The integer `x` is a value of Go `int64`. -/
def InInt64 (x : Int) : Prop := -9223372036854775808 ≤ x ∧ x < 9223372036854775808

instance (x : Int) : Decidable (InInt64 x) := by
  unfold InInt64; exact inferInstance

/-! ## Package `model` -/

/-- Go `uuid.UUID`, an opaque identifier that is only compared for equality. -/
abbrev UUID := Nat

namespace model

/-- Go `model.Subscription`. -/
structure Subscription where
  ID : UUID
  ServiceName : String
  Price : Int
  UserID : UUID
  StartDate : Time
  EndDate : Option Time
  CreatedAt : Time
  deriving DecidableEq, Repr

end model

open model (Subscription)

/-! ## Package `repository` -/

namespace repository

/-- Go `repository.SubscriptionRepo`: the rows of the subscriptions table, together with
the error the database reports for a query, if it fails. -/
structure SubscriptionRepo where
  rows : List Subscription
  findErr : Option String

namespace SubscriptionRepo

/-- Go `SubscriptionRepo.List`: the rows, narrowed by each filter that is present. -/
def List (r : SubscriptionRepo) (userID : Option UUID) (serviceName : Option String) :
    Except String (List Subscription) :=
  match r.findErr with
  | some err => .error err
  | none =>
    .ok (r.rows.filter fun s =>
      (match userID with
        | some u => decide (s.UserID = u)
        | none => true) &&
      (match serviceName with
        | some n => decide (s.ServiceName = n)
        | none => true))

end SubscriptionRepo

end repository

open repository (SubscriptionRepo)

/-! ## Package `service` -/

namespace service

/-- Go `time.Date(t.Year(), t.Month(), 1, 0, 0, 0, 0, loc)`, the truncation to the first
day of the month that `Create`, `Update` and `Sum` apply. -/
def monthStart (t : Time) : Time := time.Date t.Year t.Month 1 0 0 0 0

/-- The sentinel `time.Date(9999, 12, 1, 0, 0, 0, 0, time.UTC)` standing for an absent
end date in `Create` and `Update`. -/
def farFuture : Time := time.Date 9999 12 1 0 0 0 0

/-- Lines 31-35 of `Create` and 68-72 of `Update`: both dates of the record are
truncated to the month. -/
def normalizeDates (sub : Subscription) : Subscription :=
  { sub with
    StartDate := monthStart sub.StartDate
    EndDate := match sub.EndDate with
      | some ed => some (monthStart ed)
      | none => none }

/-- Lines 44-48 and 49-53 of `Create` (83-87 and 88-92 of `Update`): the end date of a
record, or the sentinel when the record has none. -/
def endOrFarFuture (sub : Subscription) : Time :=
  match sub.EndDate with
  | some t => t
  | none => farFuture

/-- The test of lines 44-55 (`Create`) and 83-94 (`Update`) for one existing record
`e`: absent end dates are replaced by the sentinel, then
`sub.StartDate.Before(*eEnd) && (*newEnd).After(e.StartDate)`. -/
def overlapTest (sub e : Subscription) : Bool :=
  let eEnd := endOrFarFuture e
  let newEnd := endOrFarFuture sub
  sub.StartDate.Before eEnd && newEnd.After e.StartDate

/-- The loop of `Create` (lines 43-58): `true` when it returns the overlap error. -/
def createLoop (sub : Subscription) : List Subscription → Bool
  | [] => false
  | e :: rest => if overlapTest sub e then true else createLoop sub rest

/-- The loop of `Update` (lines 79-97): records with the candidate's own ID are
skipped. -/
def updateLoop (sub : Subscription) : List Subscription → Bool
  | [] => false
  | e :: rest =>
    if e.ID = sub.ID then updateLoop sub rest
    else if overlapTest sub e then true else updateLoop sub rest

/-- What `Create` and `Update` return, by the place they return from. -/
inductive WriteResult where
  /-- Returned as `errors.New("price cannot be negative")`. -/
  | priceNegative
  /-- The error of `repo.List`, passed on. -/
  | listFailed (err : String)
  /-- Returned as
  `fmt.Errorf("subscription for service %s overlaps with existing subscription", name)`. -/
  | overlaps (name : String)
  /-- The function ends in `return s.repo.Create(sub)`: the repository write is called
  with `sub`. -/
  | repoCreate (sub : Subscription)
  /-- The function ends in `return s.repo.Update(sub)`. -/
  | repoUpdate (sub : Subscription)
  deriving DecidableEq, Repr

/-- Go `service.SubscriptionService`. -/
structure SubscriptionService where
  repo : SubscriptionRepo

namespace SubscriptionService

/-- Go `SubscriptionService.Create`. -/
def Create (s : SubscriptionService) (sub0 : Subscription) : WriteResult :=
  if sub0.Price < 0 then .priceNegative
  else
    let sub := normalizeDates sub0
    match s.repo.List (some sub.UserID) (some sub.ServiceName) with
    | .error err => .listFailed err
    | .ok existing =>
      if createLoop sub existing then .overlaps sub.ServiceName
      else .repoCreate sub

/-- Go `SubscriptionService.Update`. -/
def Update (s : SubscriptionService) (sub0 : Subscription) : WriteResult :=
  if sub0.Price < 0 then .priceNegative
  else
    let sub := normalizeDates sub0
    match s.repo.List (some sub.UserID) (some sub.ServiceName) with
    | .error err => .listFailed err
    | .ok existing =>
      if updateLoop sub existing then .overlaps sub.ServiceName
      else .repoUpdate sub

end SubscriptionService

/-- Go `service.maxTime`. -/
def maxTime (a b : Time) : Time := if a.After b then a else b

/-- Go `service.minTime`. -/
def minTime (a b : Time) : Time := if a.Before b then a else b

/-- Go `service.monthsBetween`. -/
def monthsBetween (start stop : Time) : Int :=
  let yearDiff := stop.Year - start.Year
  let monthDiff := stop.Month - start.Month
  yearDiff * 12 + monthDiff + 1

/-- One pass of the loop of `Sum` (lines 121-135) from running total `total`; the last
line is `total += int64(months) * int64(sub.Price)` in `int64`. -/
def sumStep (ps pe : Time) (total : Int) (sub : Subscription) : Int :=
  let start := sub.StartDate
  let stop := match sub.EndDate with
    | none => pe
    | some e => if e.After pe then pe else e
  if start.After pe || stop.Before ps then total
  else
    let overlapStart := maxTime start ps
    let overlapEnd := minTime stop pe
    let months := monthsBetween overlapStart overlapEnd
    wrapInt64 (total + wrapInt64 (wrapInt64 months * wrapInt64 sub.Price))

/-- The month count that one pass of the loop of `Sum` multiplies by the price, and zero
when the pass is skipped. -/
def stepMonths (ps pe : Time) (sub : Subscription) : Int :=
  let stop := match sub.EndDate with
    | none => pe
    | some e => if e.After pe then pe else e
  if sub.StartDate.After pe || stop.Before ps then 0
  else monthsBetween (maxTime sub.StartDate ps) (minTime stop pe)

/-- What the loop of `Sum` adds up over `subs` when the products and the sum are taken
in exact integer arithmetic. -/
def exactTotal (ps pe : Time) (subs : List Subscription) : Int :=
  (subs.map fun sub => stepMonths ps pe sub * sub.Price).sum

/-- The loop of `Sum` over the listed subscriptions, starting from `total`. -/
def sumLoop (ps pe : Time) : Int → List Subscription → Int
  | total, [] => total
  | total, sub :: rest => sumLoop ps pe (sumStep ps pe total sub) rest

namespace SubscriptionService

/-- Go `SubscriptionService.Sum`; the Go result `(0, err)` is `.error err`. -/
def Sum (s : SubscriptionService) (periodStart periodEnd : Time)
    (userID : Option UUID) (serviceName : Option String) : Except String Int :=
  let ps := monthStart periodStart
  let pe := monthStart periodEnd
  match s.repo.List userID serviceName with
  | .error err => .error err
  | .ok subs => .ok (sumLoop ps pe 0 subs)

end SubscriptionService

end service

/-! ## Package `api` -/

namespace api

/-- Go `api.maxTime`. -/
def maxTime (a b : Time) : Time := if a.After b then a else b

/-- Go `api.minTime`. -/
def minTime (a b : Time) : Time := if a.Before b then a else b

/-- Go `api.monthsBetween`. -/
def monthsBetween (start stop : Time) : Int :=
  let yearDiff := stop.Year - start.Year
  let monthDiff := stop.Month - start.Month
  yearDiff * 12 + monthDiff

/-- One pass of the loop of `Handler.Summary` (lines 224-251); line 249 is
`total += int64(months) * int64(sub.Price)` in `int64`. -/
def summaryStep (periodStart periodEnd : Time) (total : Int) (sub : Subscription) : Int :=
  let subStart := sub.StartDate
  let subEnd := match sub.EndDate with
    | none => periodEnd
    | some e => if e.After periodEnd then periodEnd else e
  if subStart.After periodEnd then total
  else if subEnd.Before periodStart then total
  else
    let overlapStart := maxTime subStart periodStart
    let overlapEnd := minTime subEnd periodEnd
    let months := monthsBetween overlapStart overlapEnd
    if months > 0 then wrapInt64 (total + wrapInt64 (wrapInt64 months * wrapInt64 sub.Price))
    else total

/-- The exact product that one pass of the loop of `Handler.Summary` adds, and zero when
the pass adds nothing. -/
def stepAmount (periodStart periodEnd : Time) (sub : Subscription) : Int :=
  let subEnd := match sub.EndDate with
    | none => periodEnd
    | some e => if e.After periodEnd then periodEnd else e
  if sub.StartDate.After periodEnd then 0
  else if subEnd.Before periodStart then 0
  else
    let months := monthsBetween (maxTime sub.StartDate periodStart) (minTime subEnd periodEnd)
    if months > 0 then months * sub.Price else 0

/-- What the loop of `Handler.Summary` adds up over `subs` in exact integer arithmetic. -/
def exactSummary (periodStart periodEnd : Time) (subs : List Subscription) : Int :=
  (subs.map fun sub => stepAmount periodStart periodEnd sub).sum

/-- The loop of `Handler.Summary`, starting from `total`. -/
def summaryLoop (periodStart periodEnd : Time) : Int → List Subscription → Int
  | total, [] => total
  | total, sub :: rest =>
    summaryLoop periodStart periodEnd (summaryStep periodStart periodEnd total sub) rest

/-- The replies of `Handler.Summary` once both month tokens have been parsed. -/
inductive SummaryReply where
  /-- Status 400, `end date cannot be before start date`. -/
  | badRequest
  /-- Status 500, `internal error`. -/
  | internalError
  /-- Status 200 with `total_rub`. -/
  | ok (total : Int)
  deriving DecidableEq, Repr

/-- Go `api.Handler` (the logger is left out). -/
structure Handler where
  svc : service.SubscriptionService

/-- Go `SubscriptionService.List`, which hands the call to the repository. -/
def svcList (svc : service.SubscriptionService) (userID : Option UUID)
    (serviceName : Option String) : Except String (List Subscription) :=
  svc.repo.List userID serviceName

/-- Go `Handler.Summary` from line 195 on: `periodStart` and `periodEnd` are the parsed
`start` and `end` tokens, `userID` and `serviceName` the parsed optional filters. -/
def Handler.Summary (h : Handler) (periodStart periodEnd : Time)
    (userID : Option UUID) (serviceName : Option String) : SummaryReply :=
  if periodEnd.Before periodStart then .badRequest
  else
    match svcList h.svc userID serviceName with
    | .error _ => .internalError
    | .ok subs => .ok (summaryLoop periodStart periodEnd 0 subs)

end api

/-! ## Calendar-month reading of the aggregation -/

namespace spec

/-- The number of calendar months `m` (by month index) with
`periodStart ≤ m ≤ periodEnd`, `startDate ≤ m` and, when the end date is present,
`m ≤ endDate`. -/
def coveredMonths (periodStart periodEnd : Time) (sub : Subscription) : Nat :=
  ((Finset.Icc periodStart.monthIndex periodEnd.monthIndex).filter fun m =>
    (decide (sub.StartDate.monthIndex ≤ m) &&
      match sub.EndDate with
      | none => true
      | some e => decide (m ≤ e.monthIndex)) = true).card

/-- The sum over the subscriptions of price times covered months. -/
def expectedTotal (periodStart periodEnd : Time) (subs : List Subscription) : Int :=
  (subs.map fun sub => sub.Price * (coveredMonths periodStart periodEnd sub : Int)).sum

end spec

/-! ## Sample data -/

namespace sample

/-- The first day of month `m` of year `y`, at midnight. -/
def ym (y m : Int) : Time := ⟨y, m, 1, 0, 0, 0, 0⟩

/-- A subscription of user `7` to the service `"music"`. -/
def music (id : UUID) (price : Int) (start : Time) (stop : Option Time) : Subscription :=
  ⟨id, "music", price, 7, start, stop, ym 2023 12⟩

/-- A service over a table with the given rows and a healthy database. -/
def serviceOver (rows : List Subscription) : service.SubscriptionService := ⟨⟨rows, none⟩⟩

end sample

/-! ## Order lemmas for `Before` and `After` -/

namespace time.Time

theorem before_iff (t u : Time) :
    t.Before u = true ↔
      (t.year < u.year ∨ (t.year = u.year ∧ (t.month < u.month ∨ (t.month = u.month ∧
      (t.day < u.day ∨ (t.day = u.day ∧ (t.hour < u.hour ∨ (t.hour = u.hour ∧
      (t.minute < u.minute ∨ (t.minute = u.minute ∧ (t.second < u.second ∨
      (t.second = u.second ∧ t.nano < u.nano)))))))))))) := by
  simp [Before]

theorem before_irrefl (t : Time) : t.Before t = false := by
  rw [← Bool.not_eq_true, before_iff]; omega

theorem before_trans {a b c : Time} (hab : a.Before b = true) (hbc : b.Before c = true) :
    a.Before c = true := by
  rw [before_iff] at *; omega

theorem before_of_before_of_not_before {a b c : Time} (hab : a.Before b = true)
    (hcb : c.Before b = false) : a.Before c = true := by
  rw [← Bool.not_eq_true] at hcb
  rw [before_iff] at *; omega

theorem not_before_trans {a b c : Time} (hab : b.Before a = false)
    (hbc : c.Before b = false) : c.Before a = false := by
  rw [← Bool.not_eq_true] at *
  rw [before_iff] at *; omega

theorem year_month_eq_of_not_before {a b : Time} (hab : a.Before b = false)
    (hba : b.Before a = false) : a.year = b.year ∧ a.month = b.month := by
  rw [← Bool.not_eq_true] at *
  rw [before_iff] at *; omega

theorem before_iff_monthIndex {a b : Time} (ha : a.IsMonthStart) (hb : b.IsMonthStart) :
    a.Before b = true ↔ a.monthIndex < b.monthIndex := by
  rw [before_iff]
  unfold IsMonthStart InRange at ha hb
  unfold monthIndex
  omega

end time.Time

/-! ## Lemmas on the write path -/

namespace service

open sample

theorem createLoop_eq_any (sub : Subscription) (existing : List Subscription) :
    createLoop sub existing = existing.any (overlapTest sub) := by
  induction existing with
  | nil => rfl
  | cons e rest ih =>
    simp only [createLoop, List.any_cons, ih]
    cases overlapTest sub e <;> simp

theorem updateLoop_eq_createLoop_filter (sub : Subscription) (existing : List Subscription) :
    updateLoop sub existing =
      createLoop sub (existing.filter fun e => decide (e.ID ≠ sub.ID)) := by
  induction existing with
  | nil => rfl
  | cons e rest ih =>
    by_cases h : e.ID = sub.ID
    · simp [updateLoop, h, ih]
    · simp [updateLoop, createLoop, h, ih]

theorem create_of_list_ok (s : SubscriptionService) (sub0 : Subscription)
    (existing : List Subscription) (hprice : 0 ≤ sub0.Price)
    (hlist : s.repo.List (some sub0.UserID) (some sub0.ServiceName) = .ok existing) :
    s.Create sub0 =
      if createLoop (normalizeDates sub0) existing then .overlaps sub0.ServiceName
      else .repoCreate (normalizeDates sub0) := by
  have hp : ¬ sub0.Price < 0 := by omega
  have hl : s.repo.List (some (normalizeDates sub0).UserID)
      (some (normalizeDates sub0).ServiceName) = .ok existing := hlist
  simp only [SubscriptionService.Create, hp, if_false, hl]
  rfl

theorem update_of_list_ok (s : SubscriptionService) (sub0 : Subscription)
    (existing : List Subscription) (hprice : 0 ≤ sub0.Price)
    (hlist : s.repo.List (some sub0.UserID) (some sub0.ServiceName) = .ok existing) :
    s.Update sub0 =
      if updateLoop (normalizeDates sub0) existing then .overlaps sub0.ServiceName
      else .repoUpdate (normalizeDates sub0) := by
  have hp : ¬ sub0.Price < 0 := by omega
  have hl : s.repo.List (some (normalizeDates sub0).UserID)
      (some (normalizeDates sub0).ServiceName) = .ok existing := hlist
  simp only [SubscriptionService.Update, hp, if_false, hl]
  rfl

end service

/-! ## Overlap validation -/

namespace claims

open service sample

/-- C1, evaluated on the code: with the stored subscription `[2024-01, 2024-03]` and the
candidate `[2024-03, 2024-06]` for the same user and service, which share the month of
March, `Create` returns no overlap error: it ends in the repository write.  The same
happens for a candidate `[2024-05, 2024-05]` when that very period is already stored. -/
theorem create_shared_boundary_month_is_written :
    (serviceOver [music 1 500 (ym 2024 5) (some (ym 2024 5))]).Create
        (music 2 500 (ym 2024 5) (some (ym 2024 5))) =
      .repoCreate (music 2 500 (ym 2024 5) (some (ym 2024 5))) ∧
    (serviceOver [music 1 500 (ym 2024 1) (some (ym 2024 3))]).repo.List (some 7) (some "music") =
        .ok [music 1 500 (ym 2024 1) (some (ym 2024 3))] ∧
      (music 2 500 (ym 2024 3) (some (ym 2024 6))).StartDate =
        endOrFarFuture (music 1 500 (ym 2024 1) (some (ym 2024 3))) ∧
      (serviceOver [music 1 500 (ym 2024 1) (some (ym 2024 3))]).Create
          (music 2 500 (ym 2024 3) (some (ym 2024 6))) =
        .repoCreate (music 2 500 (ym 2024 3) (some (ym 2024 6))) := by
  refine ⟨?_, rfl, rfl, ?_⟩ <;> decide

/-- C2: when `repo.List` returns `existing` for the candidate's user and service, the
price is not negative, and every existing record lies wholly before or wholly after the
normalised candidate (its end month, or the sentinel 9999-12 when absent, is strictly
before the candidate's start, or its start is strictly after the candidate's end month or
sentinel), `Create` returns no overlap error and ends in the repository write of the
normalised candidate. -/
theorem create_without_shared_month_is_written (s : SubscriptionService)
    (sub0 : Subscription) (existing : List Subscription) (hprice : 0 ≤ sub0.Price)
    (hlist : s.repo.List (some sub0.UserID) (some sub0.ServiceName) = .ok existing)
    (hapart : ∀ e ∈ existing,
      (endOrFarFuture e).Before (normalizeDates sub0).StartDate = true ∨
        e.StartDate.After (endOrFarFuture (normalizeDates sub0)) = true) :
    (∀ name, s.Create sub0 ≠ .overlaps name) ∧
      s.Create sub0 = .repoCreate (normalizeDates sub0) := by
  have hloop : createLoop (normalizeDates sub0) existing = false := by
    rw [createLoop_eq_any, List.any_eq_false]
    intro e he
    have h := hapart e he
    simp only [overlapTest, Time.After, Bool.and_eq_true, not_and, Bool.not_eq_true] at h ⊢
    intro h1
    rcases h with h | h
    · have := Time.before_trans h1 h
      rw [Time.before_irrefl] at this
      exact absurd this (by decide)
    · cases h2 : (normalizeDates sub0).StartDate.Before (endOrFarFuture e) with
      | false => rw [h2] at h1; exact absurd h1 (by decide)
      | true =>
        cases h3 : e.StartDate.Before (endOrFarFuture (normalizeDates sub0)) with
        | false => rfl
        | true =>
          have := Time.before_trans h h3
          rw [Time.before_irrefl] at this
          exact absurd this (by decide)
  have hc := create_of_list_ok s sub0 existing hprice hlist
  rw [hloop] at hc
  simp only [Bool.false_eq_true, if_false] at hc
  rw [hc]
  exact ⟨by simp, rfl⟩

/-- Witness for C2: stored `[2024-01, 2024-02]`, candidate `[2024-03, 2024-06]`. -/
theorem create_without_shared_month_is_written_witness :
    (∀ name, (serviceOver [music 1 500 (ym 2024 1) (some (ym 2024 2))]).Create
        (music 2 500 (ym 2024 3) (some (ym 2024 6))) ≠ .overlaps name) ∧
      (serviceOver [music 1 500 (ym 2024 1) (some (ym 2024 2))]).Create
          (music 2 500 (ym 2024 3) (some (ym 2024 6))) =
        .repoCreate (normalizeDates (music 2 500 (ym 2024 3) (some (ym 2024 6)))) :=
  create_without_shared_month_is_written
    (serviceOver [music 1 500 (ym 2024 1) (some (ym 2024 2))])
    (music 2 500 (ym 2024 3) (some (ym 2024 6)))
    [music 1 500 (ym 2024 1) (some (ym 2024 2))] (by decide) rfl (by decide)

/-- C3 fails as stated: a candidate without end date that starts in the sentinel month
9999-12, or after it in 10000-01, is written although a stored subscription of the same
user and service has no end date either. -/
theorem create_two_perpetual_at_sentinel_is_written :
    (music 2 500 (ym 9999 12) none).EndDate = none ∧
      (music 1 500 (ym 2024 1) none).EndDate = none ∧
      (serviceOver [music 1 500 (ym 2024 1) none]).repo.List (some 7) (some "music") =
        .ok [music 1 500 (ym 2024 1) none] ∧
      (serviceOver [music 1 500 (ym 2024 1) none]).Create (music 2 500 (ym 9999 12) none) =
        .repoCreate (music 2 500 (ym 9999 12) none) ∧
      (serviceOver [music 1 500 (ym 2024 1) none]).Create (music 2 500 (ym 10000 1) none) =
        .repoCreate (music 2 500 (ym 10000 1) none) := by
  refine ⟨rfl, rfl, rfl, ?_, ?_⟩ <;> decide

/-- C3, amended: when the candidate (price not negative) has no end date, `repo.List`
returns for its user and service a list containing a record `e` without end date, and
both the normalised candidate's start and the start of `e` are strictly before the
sentinel month 9999-12, `Create` returns the overlap error. -/
theorem create_two_perpetual_before_sentinel_conflict (s : SubscriptionService)
    (sub0 : Subscription) (existing : List Subscription) (e : Subscription)
    (hprice : 0 ≤ sub0.Price)
    (hlist : s.repo.List (some sub0.UserID) (some sub0.ServiceName) = .ok existing)
    (hend : sub0.EndDate = none) (he : e ∈ existing) (heEnd : e.EndDate = none)
    (hstart : (normalizeDates sub0).StartDate.Before farFuture = true)
    (heStart : e.StartDate.Before farFuture = true) :
    s.Create sub0 = .overlaps sub0.ServiceName := by
  have hloop : createLoop (normalizeDates sub0) existing = true := by
    rw [createLoop_eq_any, List.any_eq_true]
    refine ⟨e, he, ?_⟩
    have h1 : endOrFarFuture e = farFuture := by simp [endOrFarFuture, heEnd]
    have h2 : endOrFarFuture (normalizeDates sub0) = farFuture := by
      simp [endOrFarFuture, normalizeDates, hend]
    simp [overlapTest, Time.After, h1, h2, hstart, heStart]
  rw [create_of_list_ok s sub0 existing hprice hlist, hloop]
  rfl

/-- Witness for the amended C3: stored perpetual from 2023-01, perpetual candidate from
2024-06. -/
theorem create_two_perpetual_before_sentinel_conflict_witness :
    (serviceOver [music 1 500 (ym 2023 1) none]).Create (music 2 500 (ym 2024 6) none) =
      .overlaps "music" :=
  create_two_perpetual_before_sentinel_conflict (serviceOver [music 1 500 (ym 2023 1) none])
    (music 2 500 (ym 2024 6) none) [music 1 500 (ym 2023 1) none]
    (music 1 500 (ym 2023 1) none) (by decide) rfl rfl (by simp) rfl (by decide) (by decide)

/-- C4: the loop of `Update` decides as the loop of `Create` does on the list from which
every record with the candidate's ID has been removed; hence, when `repo.List` returns
`existing` and the price is not negative, `Update` returns the overlap error exactly when
the overlap test holds for some remaining record, and when every returned record carries
the candidate's ID, `Update` ends in the repository write whatever the periods are. -/
theorem update_decides_on_other_records (s : SubscriptionService) (sub0 : Subscription)
    (existing : List Subscription) :
    updateLoop (normalizeDates sub0) existing =
        createLoop (normalizeDates sub0) (existing.filter fun e => decide (e.ID ≠ sub0.ID)) ∧
      (0 ≤ sub0.Price →
        s.repo.List (some sub0.UserID) (some sub0.ServiceName) = .ok existing →
        ((s.Update sub0 = .overlaps sub0.ServiceName ↔
            ∃ e ∈ existing, e.ID ≠ sub0.ID ∧ overlapTest (normalizeDates sub0) e = true) ∧
          ((∀ e ∈ existing, e.ID = sub0.ID) →
            s.Update sub0 = .repoUpdate (normalizeDates sub0)))) := by
  have hfilter := updateLoop_eq_createLoop_filter (normalizeDates sub0) existing
  have hid : (normalizeDates sub0).ID = sub0.ID := rfl
  rw [hid] at hfilter
  refine ⟨hfilter, fun hprice hlist => ?_⟩
  have hu := update_of_list_ok s sub0 existing hprice hlist
  have hany : updateLoop (normalizeDates sub0) existing = true ↔
      ∃ e ∈ existing, e.ID ≠ sub0.ID ∧ overlapTest (normalizeDates sub0) e = true := by
    rw [hfilter, createLoop_eq_any, List.any_eq_true]
    constructor
    · rintro ⟨e, he, ht⟩
      rw [List.mem_filter] at he
      exact ⟨e, he.1, by simpa using he.2, ht⟩
    · rintro ⟨e, he, hne, ht⟩
      exact ⟨e, List.mem_filter.mpr ⟨he, by simpa using hne⟩, ht⟩
  constructor
  · rw [hu, ← hany]
    cases updateLoop (normalizeDates sub0) existing <;> simp
  · intro hall
    have hf : updateLoop (normalizeDates sub0) existing = false := by
      cases hb : updateLoop (normalizeDates sub0) existing with
      | false => rfl
      | true =>
        obtain ⟨e, he, hne, _⟩ := hany.mp hb
        exact absurd (hall e he) hne
    rw [hu, hf]
    rfl

/-- Witness for C4: the only stored record is the candidate's own prior record
`[2024-01, 2024-06]`, and the update moves it to the overlapping period
`[2024-03, 2024-09]`. -/
theorem update_decides_on_other_records_witness :
    (serviceOver [music 1 500 (ym 2024 1) (some (ym 2024 6))]).Update
        (music 1 700 (ym 2024 3) (some (ym 2024 9))) =
      .repoUpdate (normalizeDates (music 1 700 (ym 2024 3) (some (ym 2024 9)))) :=
  ((update_decides_on_other_records (serviceOver [music 1 500 (ym 2024 1) (some (ym 2024 6))])
    (music 1 700 (ym 2024 3) (some (ym 2024 9)))
    [music 1 500 (ym 2024 1) (some (ym 2024 6))]).2 (by decide) rfl).2 (by decide)

end claims

/-! ## Lemmas on the aggregation -/

namespace service

theorem monthStart_of_isMonthStart {t : Time} (h : t.IsMonthStart) : monthStart t = t := by
  obtain ⟨y, m, d, hh, mi, sc, n⟩ := t
  simp only [Time.IsMonthStart, Time.InRange] at h
  obtain ⟨⟨h1, h2⟩, rfl, rfl, rfl, rfl, rfl⟩ := h
  have e1 : (m - 1) / 12 = 0 := by omega
  have e2 : (m - 1) % 12 + 1 = m := by omega
  simp [monthStart, time.Date, Time.Year, Time.Month, e1, e2]

theorem monthStart_isMonthStart (t : Time) :
    (monthStart t).IsMonthStart ∧ (monthStart t).monthIndex = t.monthIndex := by
  simp only [Time.IsMonthStart, Time.InRange, Time.monthIndex, monthStart, time.Date,
    Time.Year, Time.Month, and_true]
  omega

theorem wrapInt64_of_inInt64 {x : Int} (h : InInt64 x) : wrapInt64 x = x := by
  unfold InInt64 at h
  unfold wrapInt64
  omega

theorem wrapInt64_modEq (x : Int) : wrapInt64 x ≡ x [ZMOD 18446744073709551616] := by
  unfold wrapInt64 Int.ModEq
  omega

theorem wrapInt64_congr {x y : Int} (h : x ≡ y [ZMOD 18446744073709551616]) :
    wrapInt64 x = wrapInt64 y := by
  unfold Int.ModEq at h
  unfold wrapInt64
  omega

/-- Wrapping the factors, the product and the old total does not change the wrapped
result: `int64` arithmetic is arithmetic modulo `2^64`. -/
theorem wrapInt64_step (t m p : Int) :
    wrapInt64 (wrapInt64 t + wrapInt64 (wrapInt64 m * wrapInt64 p)) = wrapInt64 (t + m * p) :=
  wrapInt64_congr (Int.ModEq.add (wrapInt64_modEq t)
    ((wrapInt64_modEq _).trans (Int.ModEq.mul (wrapInt64_modEq m) (wrapInt64_modEq p))))

theorem sumStep_wrap (ps pe : Time) (t : Int) (sub : Subscription) :
    sumStep ps pe (wrapInt64 t) sub = wrapInt64 (t + stepMonths ps pe sub * sub.Price) := by
  simp only [sumStep, stepMonths]
  split_ifs
  · simp
  · exact wrapInt64_step _ _ _

theorem sumLoop_wrap (ps pe : Time) (subs : List Subscription) (t : Int) :
    sumLoop ps pe (wrapInt64 t) subs = wrapInt64 (t + exactTotal ps pe subs) := by
  induction subs generalizing t with
  | nil => simp [sumLoop, exactTotal]
  | cons sub rest ih =>
    simp only [sumLoop]
    rw [sumStep_wrap, ih]
    simp only [exactTotal, List.map_cons, List.sum_cons]
    rw [Int.add_assoc]

/-- The loop of `Sum` returns the exact total reduced to `int64`. -/
theorem sumLoop_zero (ps pe : Time) (subs : List Subscription) :
    sumLoop ps pe 0 subs = wrapInt64 (exactTotal ps pe subs) := by
  have h := sumLoop_wrap ps pe subs 0
  have h0 : wrapInt64 0 = 0 := by decide
  rw [h0, Int.zero_add] at h
  exact h

theorem exactTotal_insert (ps pe : Time) (sub : Subscription) (pre post : List Subscription) :
    exactTotal ps pe (pre ++ sub :: post) =
      exactTotal ps pe (pre ++ post) + stepMonths ps pe sub * sub.Price := by
  simp only [exactTotal, List.map_append, List.map_cons, List.sum_append, List.sum_cons]
  ring

theorem sum_of_list_ok (s : SubscriptionService) (periodStart periodEnd : Time)
    (userID : Option UUID) (serviceName : Option String) (subs : List Subscription)
    (hlist : s.repo.List userID serviceName = .ok subs) :
    s.Sum periodStart periodEnd userID serviceName =
      .ok (wrapInt64 (exactTotal (monthStart periodStart) (monthStart periodEnd) subs)) := by
  simp only [SubscriptionService.Sum, hlist, sumLoop_zero]

/-- `Sum` over a list with `sub` in it against `Sum` over the list without it. -/
theorem sum_insert (s rest : SubscriptionService) (periodStart periodEnd : Time)
    (userID : Option UUID) (serviceName : Option String)
    (pre post : List Subscription) (sub : Subscription)
    (hlist : s.repo.List userID serviceName = .ok (pre ++ sub :: post))
    (hrest : rest.repo.List userID serviceName = .ok (pre ++ post)) :
    ∃ others, rest.Sum periodStart periodEnd userID serviceName = .ok others ∧
      s.Sum periodStart periodEnd userID serviceName =
        .ok (wrapInt64 (others +
          stepMonths (monthStart periodStart) (monthStart periodEnd) sub * sub.Price)) := by
  refine ⟨_, sum_of_list_ok rest periodStart periodEnd userID serviceName _ hrest, ?_⟩
  rw [sum_of_list_ok s periodStart periodEnd userID serviceName _ hlist, exactTotal_insert]
  exact congrArg _ (wrapInt64_congr
    (Int.ModEq.add (wrapInt64_modEq _).symm (Int.ModEq.refl _)))

theorem coveredMonths_eq (periodStart periodEnd : Time) (sub : Subscription) :
    spec.coveredMonths periodStart periodEnd sub =
      match sub.EndDate with
      | none => (periodEnd.monthIndex + 1 -
          max periodStart.monthIndex sub.StartDate.monthIndex).toNat
      | some e => (min periodEnd.monthIndex e.monthIndex + 1 -
          max periodStart.monthIndex sub.StartDate.monthIndex).toNat := by
  unfold spec.coveredMonths
  cases hend : sub.EndDate with
  | none =>
    simp only
    rw [← Int.card_Icc]
    congr 1
    ext m
    simp only [Finset.mem_filter, Finset.mem_Icc, Bool.and_eq_true, decide_eq_true_eq,
      and_true]
    omega
  | some e =>
    simp only
    rw [← Int.card_Icc]
    congr 1
    ext m
    simp only [Finset.mem_filter, Finset.mem_Icc, Bool.and_eq_true, decide_eq_true_eq]
    omega

/-- For month-granular dates with `pe ≥ ps` and a present end date not before the start
date, the month count of one pass of the loop is the number of covered months. -/
theorem stepMonths_eq_coveredMonths {ps pe : Time} {sub : Subscription}
    (hps : ps.IsMonthStart) (hpe : pe.IsMonthStart)
    (hwin : ps.monthIndex ≤ pe.monthIndex)
    (hstart : sub.StartDate.IsMonthStart)
    (hend : ∀ e ∈ sub.EndDate, e.IsMonthStart ∧ e.Before sub.StartDate = false) :
    stepMonths ps pe sub = (spec.coveredMonths ps pe sub : Int) := by
  rw [coveredMonths_eq]
  unfold stepMonths
  cases he : sub.EndDate with
  | none =>
    simp only [Time.After, Bool.or_eq_true, maxTime, minTime, Time.before_irrefl,
      Time.before_iff_monthIndex hpe hstart, Time.before_iff_monthIndex hpe hps,
      Time.before_iff_monthIndex hps hstart]
    split_ifs <;>
      simp only [monthsBetween, Time.Year, Time.Month, Time.monthIndex] at * <;> omega
  | some e =>
    obtain ⟨hemonth, hes⟩ := hend e he
    rw [← Bool.not_eq_true, Time.before_iff_monthIndex hemonth hstart] at hes
    simp only [Time.After, Bool.or_eq_true, maxTime, minTime]
    split_ifs <;>
      simp only [Time.before_irrefl, Time.before_iff_monthIndex hpe hstart,
        Time.before_iff_monthIndex hpe hps, Time.before_iff_monthIndex hps hstart,
        Time.before_iff_monthIndex hpe hemonth, Time.before_iff_monthIndex hemonth hps,
        Time.before_iff_monthIndex hemonth hpe, Bool.false_eq_true] at * <;>
      simp only [monthsBetween, Time.Year, Time.Month, Time.monthIndex] at * <;> omega

theorem exactTotal_eq_expectedTotal {ps pe : Time} (subs : List Subscription)
    (hps : ps.IsMonthStart) (hpe : pe.IsMonthStart)
    (hwin : ps.monthIndex ≤ pe.monthIndex)
    (hsubs : ∀ sub ∈ subs, sub.StartDate.IsMonthStart ∧
      ∀ e ∈ sub.EndDate, e.IsMonthStart ∧ e.Before sub.StartDate = false) :
    exactTotal ps pe subs = spec.expectedTotal ps pe subs := by
  induction subs with
  | nil => rfl
  | cons sub rest ih =>
    have hsub := hsubs sub (List.mem_cons_self _ _)
    have ih2 := ih (fun x hx => hsubs x (List.mem_cons_of_mem _ hx))
    simp only [exactTotal, spec.expectedTotal, List.map_cons, List.sum_cons] at ih2 ⊢
    rw [ih2, stepMonths_eq_coveredMonths hps hpe hwin hsub.1 hsub.2, Int.mul_comm]

theorem expectedTotal_monthStart (periodStart periodEnd : Time) (subs : List Subscription) :
    spec.expectedTotal (monthStart periodStart) (monthStart periodEnd) subs =
      spec.expectedTotal periodStart periodEnd subs := by
  simp only [spec.expectedTotal, spec.coveredMonths,
    (monthStart_isMonthStart periodStart).2, (monthStart_isMonthStart periodEnd).2]

theorem stepMonths_perpetual {ps pe : Time} {sub : Subscription}
    (hwin : pe.Before ps = false) (hend : sub.EndDate = none)
    (hstart : sub.StartDate.After ps = false) :
    stepMonths ps pe sub = monthsBetween ps pe := by
  have h1 : sub.StartDate.After pe = false := Time.not_before_trans hstart hwin
  simp only [stepMonths, hend, h1, hwin, maxTime, minTime, hstart, Time.before_irrefl,
    Bool.or_self, Bool.false_eq_true, if_false]

theorem stepMonths_single_month {ps pe M : Time} {sub : Subscription}
    (hstart : sub.StartDate = M) (hend : sub.EndDate = some M)
    (hps : M.Before ps = false) (hpe : M.After pe = false) :
    stepMonths ps pe sub = 1 := by
  simp only [stepMonths, hend, hstart, hpe, hps, maxTime, minTime, Bool.or_self,
    Bool.false_eq_true, if_false]
  have hpe2 : pe.Before M = false := hpe
  by_cases h1 : M.After ps = true <;> by_cases h2 : M.Before pe = true
  · simp only [h1, h2, if_true, monthsBetween, Time.Year, Time.Month]; omega
  · simp only [h1, h2, if_true, if_false, Bool.false_eq_true, monthsBetween, Time.Year,
      Time.Month]
    have := Time.year_month_eq_of_not_before (Bool.not_eq_true _ ▸ h2) hpe2
    omega
  · simp only [h1, h2, if_true, if_false, Bool.false_eq_true, monthsBetween, Time.Year,
      Time.Month]
    have h1f : ps.Before M = false := Bool.not_eq_true _ ▸ h1
    have := Time.year_month_eq_of_not_before hps h1f
    omega
  · simp only [h1, h2, if_false, Bool.false_eq_true, monthsBetween, Time.Year, Time.Month]
    have h1f : ps.Before M = false := Bool.not_eq_true _ ▸ h1
    have e1 := Time.year_month_eq_of_not_before hps h1f
    have e2 := Time.year_month_eq_of_not_before (Bool.not_eq_true _ ▸ h2) hpe2
    omega

theorem stepMonths_outside {ps pe : Time} {sub : Subscription}
    (hwin : pe.Before ps = false)
    (hout : (∃ e ∈ sub.EndDate, e.Before ps = true) ∨ sub.StartDate.After pe = true) :
    stepMonths ps pe sub = 0 := by
  rcases hout with ⟨e, he, hb⟩ | h
  · have he2 : sub.EndDate = some e := he
    have h1 : e.After pe = false := by
      cases h : e.After pe with
      | false => rfl
      | true =>
        have h3 : pe.Before ps = true := Time.before_trans h hb
        rw [hwin] at h3
        exact absurd h3 (by decide)
    simp [stepMonths, he2, h1, hb]
  · simp [stepMonths, h]

end service

/-! ## Cost aggregation and month normalisation -/

namespace claims

open service sample

/-- C5 fails as stated: for the single month-granular subscription `[2024-01, 2024-02]`
at price `2^62` and the window `[2024-01, 2024-02]`, price times covered months is `2^63`
while `Sum`, which adds up in `int64`, returns `-2^63`. -/
theorem sum_wraps_at_large_price :
    (music 1 4611686018427387904 (ym 2024 1) (some (ym 2024 2))).StartDate.IsMonthStart ∧
      (∀ e ∈ (music 1 4611686018427387904 (ym 2024 1) (some (ym 2024 2))).EndDate,
        e.IsMonthStart ∧
          e.Before (music 1 4611686018427387904 (ym 2024 1) (some (ym 2024 2))).StartDate
            = false) ∧
      (ym 2024 2).Before (ym 2024 1) = false ∧
      (serviceOver [music 1 4611686018427387904 (ym 2024 1) (some (ym 2024 2))]).Sum
        (ym 2024 1) (ym 2024 2) none none = .ok (-9223372036854775808) ∧
      spec.expectedTotal (ym 2024 1) (ym 2024 2)
        [music 1 4611686018427387904 (ym 2024 1) (some (ym 2024 2))] =
          9223372036854775808 := by
  refine ⟨by decide, by decide, by decide, ?_, by decide⟩
  rfl

/-- C5, amended: when `repo.List` returns `subs`, every listed subscription is
month-granular with a present end date not before its start date, and the window has
`periodEnd` not before `periodStart`, `Sum` returns the sum over the subscriptions of
price times the number of calendar months `m` with `periodStart ≤ m ≤ periodEnd`,
`startDate ≤ m` and (`endDate` absent or `m ≤ endDate`), reduced to `int64`; it returns
that sum itself whenever the sum is an `int64` value. -/
theorem sum_is_price_times_covered_months (s : SubscriptionService)
    (periodStart periodEnd : Time) (userID : Option UUID) (serviceName : Option String)
    (subs : List Subscription)
    (hlist : s.repo.List userID serviceName = .ok subs)
    (hps : periodStart.InRange) (hpe : periodEnd.InRange)
    (hwin : periodEnd.Before periodStart = false)
    (hsubs : ∀ sub ∈ subs, sub.StartDate.IsMonthStart ∧
      ∀ e ∈ sub.EndDate, e.IsMonthStart ∧ e.Before sub.StartDate = false) :
    s.Sum periodStart periodEnd userID serviceName =
        .ok (wrapInt64 (spec.expectedTotal periodStart periodEnd subs)) ∧
      (InInt64 (spec.expectedTotal periodStart periodEnd subs) →
        s.Sum periodStart periodEnd userID serviceName =
          .ok (spec.expectedTotal periodStart periodEnd subs)) := by
  have hidx : (monthStart periodStart).monthIndex ≤ (monthStart periodEnd).monthIndex := by
    rw [(monthStart_isMonthStart periodStart).2, (monthStart_isMonthStart periodEnd).2]
    rw [← Bool.not_eq_true, Time.before_iff] at hwin
    unfold Time.InRange at hps hpe
    unfold Time.monthIndex
    omega
  have hsum : s.Sum periodStart periodEnd userID serviceName =
      .ok (wrapInt64 (spec.expectedTotal periodStart periodEnd subs)) := by
    rw [sum_of_list_ok s periodStart periodEnd userID serviceName subs hlist,
      exactTotal_eq_expectedTotal subs (monthStart_isMonthStart periodStart).1
        (monthStart_isMonthStart periodEnd).1 hidx hsubs,
      expectedTotal_monthStart]
  refine ⟨hsum, fun hfit => ?_⟩
  rw [hsum, wrapInt64_of_inInt64 hfit]

/-- Witness for the amended C5: a perpetual subscription from 2023-01 at price 10, the
single month 2024-05 at price 100 and the period `[2025-02, 2025-03]` at price 7, over
the window `[2024-01, 2024-12]`: twelve months, one month and none, in all 220. -/
theorem sum_is_price_times_covered_months_witness :
    (serviceOver [music 1 10 (ym 2023 1) none, music 2 100 (ym 2024 5) (some (ym 2024 5)),
        music 3 7 (ym 2025 2) (some (ym 2025 3))]).Sum (ym 2024 1) (ym 2024 12) none none =
      .ok (spec.expectedTotal (ym 2024 1) (ym 2024 12)
        [music 1 10 (ym 2023 1) none, music 2 100 (ym 2024 5) (some (ym 2024 5)),
          music 3 7 (ym 2025 2) (some (ym 2025 3))]) ∧
      spec.expectedTotal (ym 2024 1) (ym 2024 12)
        [music 1 10 (ym 2023 1) none, music 2 100 (ym 2024 5) (some (ym 2024 5)),
          music 3 7 (ym 2025 2) (some (ym 2025 3))] = 220 :=
  ⟨(sum_is_price_times_covered_months
    (serviceOver [music 1 10 (ym 2023 1) none, music 2 100 (ym 2024 5) (some (ym 2024 5)),
      music 3 7 (ym 2025 2) (some (ym 2025 3))]) (ym 2024 1) (ym 2024 12) none none
    [music 1 10 (ym 2023 1) none, music 2 100 (ym 2024 5) (some (ym 2024 5)),
      music 3 7 (ym 2025 2) (some (ym 2025 3))] rfl (by decide) (by decide) (by decide)
    (by decide)).2 (by decide), by decide⟩

/-- C6 fails as stated: for the perpetual subscription from 2023-01 at price `2^62` and
the window `[2024-01, 2024-02]`, `Sum` over the list without it is 0 and price times the
two months of the window is `2^63`, while `Sum` over the list with it returns `-2^63`. -/
theorem sum_perpetual_wraps_at_large_price :
    (music 1 4611686018427387904 (ym 2023 1) none).EndDate = none ∧
      (music 1 4611686018427387904 (ym 2023 1) none).StartDate.After (ym 2024 1) = false ∧
      (serviceOver []).Sum (ym 2024 1) (ym 2024 2) none none = .ok 0 ∧
      (serviceOver [music 1 4611686018427387904 (ym 2023 1) none]).Sum
        (ym 2024 1) (ym 2024 2) none none = .ok (-9223372036854775808) ∧
      (0 : Int) + (music 1 4611686018427387904 (ym 2023 1) none).Price *
        (((ym 2024 2).year - (ym 2024 1).year) * 12 +
          ((ym 2024 2).month - (ym 2024 1).month) + 1) = 9223372036854775808 := by
  refine ⟨rfl, by decide, ?_, ?_, by decide⟩ <;> rfl

/-- C6, amended: for a month-granular window with `periodEnd` not before `periodStart`
and a subscription without end date whose start is not after `periodStart`, `Sum` over a
list containing the subscription is `Sum` over the list without it plus price times
`(periodEnd.year - periodStart.year) * 12 + (periodEnd.month - periodStart.month) + 1`,
reduced to `int64`; it is that number itself whenever the number is an `int64` value. -/
theorem sum_perpetual_adds_window_months (s rest : SubscriptionService)
    (periodStart periodEnd : Time) (userID : Option UUID) (serviceName : Option String)
    (pre post : List Subscription) (sub : Subscription)
    (hlist : s.repo.List userID serviceName = .ok (pre ++ sub :: post))
    (hrest : rest.repo.List userID serviceName = .ok (pre ++ post))
    (hps : periodStart.IsMonthStart) (hpe : periodEnd.IsMonthStart)
    (hwin : periodEnd.Before periodStart = false)
    (hend : sub.EndDate = none)
    (hstart : sub.StartDate.After periodStart = false) :
    ∃ others, rest.Sum periodStart periodEnd userID serviceName = .ok others ∧
      s.Sum periodStart periodEnd userID serviceName =
        .ok (wrapInt64 (others + sub.Price * ((periodEnd.year - periodStart.year) * 12 +
          (periodEnd.month - periodStart.month) + 1))) ∧
      (InInt64 (others + sub.Price * ((periodEnd.year - periodStart.year) * 12 +
          (periodEnd.month - periodStart.month) + 1)) →
        s.Sum periodStart periodEnd userID serviceName =
          .ok (others + sub.Price * ((periodEnd.year - periodStart.year) * 12 +
            (periodEnd.month - periodStart.month) + 1))) := by
  obtain ⟨others, hothers, hsum⟩ :=
    sum_insert s rest periodStart periodEnd userID serviceName pre post sub hlist hrest
  rw [monthStart_of_isMonthStart hps, monthStart_of_isMonthStart hpe,
    stepMonths_perpetual hwin hend hstart, Int.mul_comm] at hsum
  have hsum2 : s.Sum periodStart periodEnd userID serviceName =
      .ok (wrapInt64 (others + sub.Price * ((periodEnd.year - periodStart.year) * 12 +
        (periodEnd.month - periodStart.month) + 1))) := hsum
  refine ⟨others, hothers, hsum2, fun hfit => ?_⟩
  rw [hsum2, wrapInt64_of_inInt64 hfit]

/-- Witness for the amended C6: start 2023-01, no end date, window `[2024-01, 2024-12]`:
twelve times the price. -/
theorem sum_perpetual_adds_window_months_witness :
    ∃ others, (serviceOver []).Sum (ym 2024 1) (ym 2024 12) none none = .ok others ∧
      (serviceOver [music 1 10 (ym 2023 1) none]).Sum (ym 2024 1) (ym 2024 12) none none =
        .ok (others + 10 * ((2024 - 2024) * 12 + (12 - 1) + 1)) := by
  obtain ⟨others, hothers, _, hfit⟩ :=
    sum_perpetual_adds_window_months (serviceOver [music 1 10 (ym 2023 1) none])
      (serviceOver []) (ym 2024 1) (ym 2024 12) none none [] []
      (music 1 10 (ym 2023 1) none) rfl rfl (by decide) (by decide) (by decide) rfl
      (by decide)
  have h0 : others = 0 := by
    have h : (serviceOver []).Sum (ym 2024 1) (ym 2024 12) none none = .ok 0 := rfl
    rw [h] at hothers
    exact (Except.ok.inj hothers).symm
  subst h0
  exact ⟨0, hothers, hfit (by decide)⟩

/-- C7 fails as stated: with the single month `[2024-05, 2024-05]` stored at price
`2^63 - 1`, a second subscription for that month at price 1 and the window
`[2024-05, 2024-05]`, `Sum` over the list without the second one returns `2^63 - 1`, so
adding one times the price gives `2^63`, while `Sum` over the list with it returns
`-2^63`. -/
theorem sum_single_month_wraps_at_large_total :
    (music 2 1 (ym 2024 5) (some (ym 2024 5))).StartDate = ym 2024 5 ∧
      (music 2 1 (ym 2024 5) (some (ym 2024 5))).EndDate = some (ym 2024 5) ∧
      (serviceOver [music 1 9223372036854775807 (ym 2024 5) (some (ym 2024 5))]).Sum
        (ym 2024 5) (ym 2024 5) none none = .ok 9223372036854775807 ∧
      (serviceOver [music 1 9223372036854775807 (ym 2024 5) (some (ym 2024 5)),
        music 2 1 (ym 2024 5) (some (ym 2024 5))]).Sum
        (ym 2024 5) (ym 2024 5) none none = .ok (-9223372036854775808) ∧
      (9223372036854775807 : Int) + 1 * (music 2 1 (ym 2024 5) (some (ym 2024 5))).Price =
        9223372036854775808 := by
  refine ⟨rfl, rfl, ?_, ?_, by decide⟩ <;> rfl

/-- C7, amended: for a month-granular window and a subscription whose start and end date
are the same month `M` with `periodStart ≤ M ≤ periodEnd`, `Sum` over a list containing
the subscription is `Sum` over the list without it plus one times the price, reduced to
`int64`; it is that number itself whenever the number is an `int64` value. -/
theorem sum_single_month_adds_price_once (s rest : SubscriptionService)
    (periodStart periodEnd M : Time) (userID : Option UUID) (serviceName : Option String)
    (pre post : List Subscription) (sub : Subscription)
    (hlist : s.repo.List userID serviceName = .ok (pre ++ sub :: post))
    (hrest : rest.repo.List userID serviceName = .ok (pre ++ post))
    (hps : periodStart.IsMonthStart) (hpe : periodEnd.IsMonthStart)
    (hstart : sub.StartDate = M) (hend : sub.EndDate = some M)
    (hlo : M.Before periodStart = false) (hhi : M.After periodEnd = false) :
    ∃ others, rest.Sum periodStart periodEnd userID serviceName = .ok others ∧
      s.Sum periodStart periodEnd userID serviceName =
        .ok (wrapInt64 (others + 1 * sub.Price)) ∧
      (InInt64 (others + 1 * sub.Price) →
        s.Sum periodStart periodEnd userID serviceName = .ok (others + 1 * sub.Price)) := by
  obtain ⟨others, hothers, hsum⟩ :=
    sum_insert s rest periodStart periodEnd userID serviceName pre post sub hlist hrest
  rw [monthStart_of_isMonthStart hps, monthStart_of_isMonthStart hpe,
    stepMonths_single_month hstart hend hlo hhi] at hsum
  refine ⟨others, hothers, hsum, fun hfit => ?_⟩
  rw [hsum, wrapInt64_of_inInt64 hfit]

/-- Witness for the amended C7: the subscription `[2024-05, 2024-05]` in the window
`[2024-01, 2024-12]`. -/
theorem sum_single_month_adds_price_once_witness :
    ∃ others, (serviceOver []).Sum (ym 2024 1) (ym 2024 12) none none = .ok others ∧
      (serviceOver [music 1 100 (ym 2024 5) (some (ym 2024 5))]).Sum (ym 2024 1) (ym 2024 12)
        none none = .ok (others + 1 * 100) := by
  obtain ⟨others, hothers, _, hfit⟩ :=
    sum_single_month_adds_price_once
      (serviceOver [music 1 100 (ym 2024 5) (some (ym 2024 5))]) (serviceOver [])
      (ym 2024 1) (ym 2024 12) (ym 2024 5) none none [] []
      (music 1 100 (ym 2024 5) (some (ym 2024 5))) rfl rfl (by decide) (by decide) rfl rfl
      (by decide) (by decide)
  have h0 : others = 0 := by
    have h : (serviceOver []).Sum (ym 2024 1) (ym 2024 12) none none = .ok 0 := rfl
    rw [h] at hothers
    exact (Except.ok.inj hothers).symm
  subst h0
  exact ⟨0, hothers, hfit (by decide)⟩

/-- C8: `Sum` over an empty list is 0; and for a month-granular window with `periodEnd`
not before `periodStart` and a subscription whose end date is present and before
`periodStart`, or whose start date is after `periodEnd`, `Sum` over a list containing the
subscription returns the same total as `Sum` over the list without it. -/
theorem sum_skips_subscription_outside_window (s rest : SubscriptionService)
    (periodStart periodEnd : Time) (userID : Option UUID) (serviceName : Option String)
    (pre post : List Subscription) (sub : Subscription) :
    (s.repo.List userID serviceName = .ok [] →
        s.Sum periodStart periodEnd userID serviceName = .ok 0) ∧
      (s.repo.List userID serviceName = .ok (pre ++ sub :: post) →
        rest.repo.List userID serviceName = .ok (pre ++ post) →
        periodStart.IsMonthStart → periodEnd.IsMonthStart →
        periodEnd.Before periodStart = false →
        ((∃ e ∈ sub.EndDate, e.Before periodStart = true) ∨
          sub.StartDate.After periodEnd = true) →
        ∃ total, rest.Sum periodStart periodEnd userID serviceName = .ok total ∧
          s.Sum periodStart periodEnd userID serviceName = .ok total) := by
  constructor
  · intro hnil
    rw [sum_of_list_ok s periodStart periodEnd userID serviceName _ hnil]
    rfl
  · intro hlist hrest hps hpe hwin hout
    refine ⟨_, sum_of_list_ok rest periodStart periodEnd userID serviceName _ hrest, ?_⟩
    rw [sum_of_list_ok s periodStart periodEnd userID serviceName _ hlist, exactTotal_insert,
      monthStart_of_isMonthStart hps, monthStart_of_isMonthStart hpe,
      stepMonths_outside hwin hout]
    simp

/-- Witness for C8: the subscription `[2023-03, 2023-12]` next to a perpetual one from
2023-01, in the window `[2024-01, 2024-12]`: the total is that of the perpetual one
alone, 120. -/
theorem sum_skips_subscription_outside_window_witness :
    (serviceOver []).Sum (ym 2024 1) (ym 2024 12) none none = .ok 0 ∧
      ∃ total, (serviceOver [music 1 10 (ym 2023 1) none]).Sum (ym 2024 1) (ym 2024 12)
          none none = .ok total ∧
        (serviceOver [music 1 10 (ym 2023 1) none,
          music 2 100 (ym 2023 3) (some (ym 2023 12))]).Sum (ym 2024 1) (ym 2024 12)
          none none = .ok total :=
  ⟨(sum_skips_subscription_outside_window (serviceOver []) (serviceOver [])
      (ym 2024 1) (ym 2024 12) none none [] [] (music 1 10 (ym 2023 1) none)).1 rfl,
    (sum_skips_subscription_outside_window
      (serviceOver [music 1 10 (ym 2023 1) none, music 2 100 (ym 2023 3) (some (ym 2023 12))])
      (serviceOver [music 1 10 (ym 2023 1) none]) (ym 2024 1) (ym 2024 12) none none
      [music 1 10 (ym 2023 1) none] [] (music 2 100 (ym 2023 3) (some (ym 2023 12)))).2
      rfl rfl (by decide) (by decide) (by decide)
      (Or.inl ⟨ym 2023 12, rfl, by decide⟩)⟩

/-- C9: the truncation that `Create` and `Update` apply to the start date and to a
present end date sends a date (month in `1..12`) to the first day, at midnight, of the
same month of the same year, and applying it twice is the same as applying it once, for
single dates and for the pair of dates of a subscription. -/
theorem monthStart_truncates_and_is_idempotent (d : Time) (sub : Subscription) :
    (d.InRange → monthStart d = ⟨d.year, d.month, 1, 0, 0, 0, 0⟩) ∧
      monthStart (monthStart d) = monthStart d ∧
      (normalizeDates sub).StartDate = monthStart sub.StartDate ∧
      (normalizeDates sub).EndDate = sub.EndDate.map monthStart ∧
      normalizeDates (normalizeDates sub) = normalizeDates sub := by
  have hidem : ∀ t : Time, monthStart (monthStart t) = monthStart t := fun t =>
    monthStart_of_isMonthStart (monthStart_isMonthStart t).1
  refine ⟨?_, hidem d, rfl, ?_, ?_⟩
  · intro h
    unfold Time.InRange at h
    have e1 : (d.month - 1) / 12 = 0 := by omega
    have e2 : (d.month - 1) % 12 + 1 = d.month := by omega
    simp [monthStart, time.Date, Time.Year, Time.Month, e1, e2]
  · cases h : sub.EndDate <;> simp [normalizeDates, h]
  · cases h : sub.EndDate <;> simp [normalizeDates, h, hidem]

/-- Witness for C9: 17 March 2024, 10:30:15. -/
theorem monthStart_truncates_and_is_idempotent_witness :
    monthStart ⟨2024, 3, 17, 10, 30, 15, 0⟩ = ⟨2024, 3, 1, 0, 0, 0, 0⟩ :=
  (monthStart_truncates_and_is_idempotent ⟨2024, 3, 17, 10, 30, 15, 0⟩
    (music 1 10 (ym 2024 1) none)).1 (by decide)

/-- C10, evaluated on the code: for the single subscription `[2024-05, 2024-05]` at price
500 and the window `[2024-05, 2024-05]`, the loop of `Handler.Summary` answers 0 while
`SubscriptionService.Sum` returns 500. -/
theorem summary_handler_differs_from_sum :
    (music 1 500 (ym 2024 5) (some (ym 2024 5))).StartDate.IsMonthStart ∧
      api.Handler.Summary ⟨serviceOver [music 1 500 (ym 2024 5) (some (ym 2024 5))]⟩
        (ym 2024 5) (ym 2024 5) none none = .ok 0 ∧
      (serviceOver [music 1 500 (ym 2024 5) (some (ym 2024 5))]).Sum
        (ym 2024 5) (ym 2024 5) none none = .ok 500 := by
  refine ⟨by decide, ?_, ?_⟩
  · decide
  · rfl

end claims

/-! ## Sign of the total -/

namespace api

open service (wrapInt64_step wrapInt64_of_inInt64)

theorem summaryStep_wrap (periodStart periodEnd : Time) (t : Int) (sub : Subscription) :
    summaryStep periodStart periodEnd (wrapInt64 t) sub =
      wrapInt64 (t + stepAmount periodStart periodEnd sub) := by
  simp only [summaryStep, stepAmount]
  split_ifs
  · simp
  · simp
  · exact wrapInt64_step _ _ _
  · simp

theorem summaryLoop_wrap (periodStart periodEnd : Time) (subs : List Subscription)
    (t : Int) :
    summaryLoop periodStart periodEnd (wrapInt64 t) subs =
      wrapInt64 (t + exactSummary periodStart periodEnd subs) := by
  induction subs generalizing t with
  | nil => simp [summaryLoop, exactSummary]
  | cons sub rest ih =>
    simp only [summaryLoop]
    rw [summaryStep_wrap, ih]
    simp only [exactSummary, List.map_cons, List.sum_cons]
    rw [Int.add_assoc]

theorem stepAmount_nonneg (periodStart periodEnd : Time) (sub : Subscription)
    (hprice : 0 ≤ sub.Price) : 0 ≤ stepAmount periodStart periodEnd sub := by
  simp only [stepAmount]
  split_ifs with h1 h2 h3
  · exact Int.le_refl _
  · exact Int.le_refl _
  · exact Int.mul_nonneg (Int.le_of_lt h3) hprice
  · exact Int.le_refl _

/-- The total of the loop of `Handler.Summary` is not negative when prices are not
negative and the exact total is an `int64` value: a month count that is not positive is
left out by the test `months > 0`. -/
theorem summaryLoop_nonneg (periodStart periodEnd : Time) (subs : List Subscription)
    (hprice : ∀ sub ∈ subs, 0 ≤ sub.Price)
    (hfit : InInt64 (exactSummary periodStart periodEnd subs)) :
    0 ≤ summaryLoop periodStart periodEnd 0 subs := by
  have h := summaryLoop_wrap periodStart periodEnd subs 0
  have h0 : wrapInt64 0 = 0 := by decide
  rw [h0, Int.zero_add, wrapInt64_of_inInt64 hfit] at h
  rw [h]
  unfold exactSummary
  apply List.sum_nonneg
  intro x hx
  obtain ⟨sub, hsub, rfl⟩ := List.mem_map.mp hx
  exact stepAmount_nonneg periodStart periodEnd sub (hprice sub hsub)

end api

namespace service

/-- With end dates not before start dates the total of the loop of `Sum` is not negative
when prices are not negative and the exact total is an `int64` value. -/
theorem sumLoop_nonneg_of_ordered {ps pe : Time} (subs : List Subscription)
    (hps : ps.IsMonthStart) (hpe : pe.IsMonthStart)
    (hwin : ps.monthIndex ≤ pe.monthIndex)
    (hsubs : ∀ sub ∈ subs, sub.StartDate.IsMonthStart ∧
      ∀ e ∈ sub.EndDate, e.IsMonthStart ∧ e.Before sub.StartDate = false)
    (hprice : ∀ sub ∈ subs, 0 ≤ sub.Price)
    (hfit : InInt64 (spec.expectedTotal ps pe subs)) :
    0 ≤ sumLoop ps pe 0 subs := by
  rw [sumLoop_zero, exactTotal_eq_expectedTotal subs hps hpe hwin hsubs,
    wrapInt64_of_inInt64 hfit]
  unfold spec.expectedTotal
  apply List.sum_nonneg
  intro x hx
  obtain ⟨sub, hsub, rfl⟩ := List.mem_map.mp hx
  exact Int.mul_nonneg (hprice sub hsub) (Int.ofNat_nonneg _)

end service

namespace claims

open service sample

/-- C11, evaluated on the code: the subscription with start 2024-06 and end 2024-01 at
price 100 is month-granular, has a price that is not negative and is accepted by
`Create`; in the window `[2024-01, 2024-12]` the loop of `Sum` does not skip it, its
month count is -4 and `Sum` returns -400, while the loop of `Handler.Summary` answers 0
on the same list and window. -/
theorem sum_negative_for_end_before_start :
    (serviceOver []).Create (music 1 100 (ym 2024 6) (some (ym 2024 1))) =
        .repoCreate (music 1 100 (ym 2024 6) (some (ym 2024 1))) ∧
      (music 1 100 (ym 2024 6) (some (ym 2024 1))).StartDate.IsMonthStart ∧
      (∀ e ∈ (music 1 100 (ym 2024 6) (some (ym 2024 1))).EndDate, e.IsMonthStart) ∧
      0 ≤ (music 1 100 (ym 2024 6) (some (ym 2024 1))).Price ∧
      (ym 2024 12).Before (ym 2024 1) = false ∧
      stepMonths (monthStart (ym 2024 1)) (monthStart (ym 2024 12))
        (music 1 100 (ym 2024 6) (some (ym 2024 1))) = -4 ∧
      (serviceOver [music 1 100 (ym 2024 6) (some (ym 2024 1))]).Sum
        (ym 2024 1) (ym 2024 12) none none = .ok (-400) ∧
      api.Handler.Summary ⟨serviceOver [music 1 100 (ym 2024 6) (some (ym 2024 1))]⟩
        (ym 2024 1) (ym 2024 12) none none = .ok 0 := by
  refine ⟨by decide, by decide, by decide, by decide, by decide, by decide, rfl, by decide⟩

end claims
